import Mathlib

/-!
Verification of the news-push module (daily image cache, push scheduler,
delivery fan-out) and the figurine module's per-user image-wait table,
shallowly embedded from the TypeScript source.
-/

namespace Xxapi

/-! ### Cache manager (src/modules/news.ts, getNewsImage / clearCache)

The upstream API response has shape `{ code, data: { image } }`; the image
field is a string that JavaScript treats as falsy when absent or empty.
The cache store is one file per `YYYY-MM-DD` date key; we model it as an
association list from date key to payload bytes.
-/

/-- The `data` object of the upstream daily-digest response. -/
structure ApiData where
  image : Option String
deriving DecidableEq, Repr

/-- An upstream daily-digest response `{ code, data }`; `data` may be absent. -/
structure ApiResponse where
  code : Nat
  data : Option ApiData
deriving DecidableEq, Repr

/-- The injected HTTP environment: the JSON response returned by the first
`ctx.http.get` on the digest endpoint, and the byte content returned by the
second `ctx.http.get` on a given image URL. -/
structure FetchEnv where
  apiResponse : ApiResponse
  imageContent : String → List Nat

/-- The cache store: one payload per date key, newest write wins. -/
abbrev Cache : Type := List (String × List Nat)

/-- The value of `response.data?.image` (absent `data` propagates to absent image). -/
def imageField (env : FetchEnv) : Option String :=
  env.apiResponse.data.bind (fun d => d.image)

/-- Whether a payload for date `d` is present (the `fs.access` check on the file). -/
def containsDate (d : String) (c : Cache) : Bool :=
  c.any (fun p => p.1 = d)

/-- The `fs.writeFile` of the payload for date `d` (overwrite if present). -/
def insertCache (d : String) (bytes : List Nat) : Cache → Cache
  | [] => [(d, bytes)]
  | (k, v) :: rest =>
      if k = d then (d, bytes) :: rest else (k, v) :: insertCache d bytes rest

/-- Errors of the cache manager: the thrown message for a bad API response. -/
inductive NewsError where
  | upstream
deriving DecidableEq, Repr

/-- `getNewsImage` from news.ts lines 194-223: fetch the digest API (one
network fetch), throw when `response.code !== 200 || !response.data?.image`
(string falsiness includes the empty string), else take `imageUrl` from the
response, check the cache file for today; on a hit return the remote URL
without further fetches, on a miss fetch the image bytes (second network
fetch) and write the cache file, then return the remote URL.  The result is
(returned reference or error, cache store afterwards, number of network
fetches performed). -/
def getNewsImage (env : FetchEnv) (today : String) (cache : Cache) :
    Except NewsError String × Cache × Nat :=
  match imageField env with
  | none => (Except.error NewsError.upstream, cache, 1)
  | some url =>
      if env.apiResponse.code ≠ 200 ∨ url = "" then
        (Except.error NewsError.upstream, cache, 1)
      else if containsDate today cache then
        (Except.ok url, cache, 1)
      else
        (Except.ok url, insertCache today (env.imageContent url) cache, 2)

/-- A concrete healthy environment used for concrete evaluations. -/
def envGood : FetchEnv :=
  { apiResponse := { code := 200, data := some { image := some "http://img.example/u.jpg" } },
    imageContent := fun _ => [1, 2, 3] }

/-- A concrete failing environment (HTTP 500 status in the JSON body). -/
def envBad : FetchEnv :=
  { apiResponse := { code := 500, data := some { image := some "http://img.example/u.jpg" } },
    imageContent := fun _ => [] }

/-! ### clearCache (news.ts lines 225-237) -/

/-- The unlink loop of clearCache: delete the listed files in order, stopping
at the first failing delete (the thrown error aborts the loop); returns
whether every delete succeeded together with the files still remaining. -/
def deleteLoop : List String → (String → Bool) → Bool × List String
  | [], _ => (true, [])
  | f :: fs, delOk => if delOk f then deleteLoop fs delOk else (false, f :: fs)

/-- clearCache from news.ts: enumerate the cache directory, unlink every file,
and reply with the count of files; any listing or delete failure is caught and
replied to as an overall failure carrying no count (modelled as none).  The
result is (reported count or failure, files remaining in the store). -/
def clearCache (files : List String) (delOk : String → Bool) : Option Nat × List String :=
  let r := deleteLoop files delOk
  (if r.1 then some files.length else none, r.2)

/-! ### Delivery fan-out (news.ts, sendToSpecificGroups, lines 166-192)

A delivery channel is one connected bot, modelled by the success predicate of
its sendMessage for each group id.
-/

/-- The inner bot loop: the index of the first channel whose send to group
`g` succeeds (the loop breaks on success), or none when every channel throws. -/
def trySend : List (String → Bool) → String → Option Nat
  | [], _ => none
  | b :: bs, g => if b g then some 0 else Option.map (fun i => i + 1) (trySend bs g)

/-- sendToSpecificGroups from news.ts: when no bot instance is available the
routine logs once and returns without visiting any group (none); otherwise it
visits each configured group in listed order and records, per group, the first
bot index that delivered, or none when every bot failed for that group. -/
def sendToSpecificGroups (bots : List (String → Bool)) (groups : List String) :
    Option (List (String × Option Nat)) :=
  match bots with
  | [] => none
  | _ :: _ => some (groups.map (fun g => (g, trySend bots g)))

/-- Modelled from the spec's words, for comparison with the code: section 4.3
prescribes one record per destination id, in listed order, for every channel
sequence including the empty one. -/
def specDelivery (bots : List (String → Bool)) (groups : List String) :
    List (String × Option Nat) :=
  groups.map (fun g => (g, trySend bots g))

/-- The two concrete channels of the spec's delivery example: channel 1
succeeds only for group B, channel 2 succeeds everywhere. -/
def botsAB : List (String → Bool) := [fun g => decide (g = "B"), fun _ => true]

/-! ### Push scheduler (news.ts lines 87-121, 239-249, 293-339)

Time is milliseconds since the local epoch; a calendar day is a fixed
86400000 ms (the setDate(+1) step of the source, no DST modelled).  A
pending setTimeout is a timer handle with a fresh id and an absolute fire
time; the multiset of uncancelled, unfired handles is tracked explicitly in
`pending` so that duplicate-timer leaks are observable, while `timer` is
the module's nullable field of the same name.
-/

/-- Length of one calendar day in milliseconds. -/
def dayMs : Nat := 86400000

/-- Milliseconds past local midnight of the configured send time (h, m). -/
def msOfTime (h m : Nat) : Nat := h * 3600000 + m * 60000

/-- The news module configuration: autoSend flag, parsed sendTime, targets. -/
structure NewsCfg where
  autoSend : Bool
  sendH : Nat
  sendM : Nat
  targetGroups : List String
deriving DecidableEq, Repr

/-- A pending setTimeout handle: identity, absolute fire time, and whether it
was armed by the debug testTimer command (whose callback does not re-arm). -/
structure TimerH where
  id : Nat
  target : Nat
  isTest : Bool
deriving DecidableEq, Repr

/-- The scheduler-relevant state of a NewsModule instance: the nullable
`this.timer` field, the multiset of live timeout handles, the config, a
fresh-id counter, and the count of sendNewsToGroups invocations made by
timer callbacks. -/
structure SchedState where
  timer : Option TimerH
  pending : List Nat
  config : NewsCfg
  nextId : Nat
  deliveries : Nat
deriving DecidableEq, Repr

/-- The clearTimeout(this.timer) guard: drop the handle the field references
from the live multiset (a no-op on an already fired or absent handle). -/
def clearPending (s : SchedState) : List Nat :=
  match s.timer with
  | some t => s.pending.filter (fun i => i ≠ t.id)
  | none => s.pending

/-- Lines 98-108 of news.ts: target is today's date at (h, m, 0, 0); if that
is at or before now it is advanced by one day; the one-shot delay is
target minus now. -/
def nextSendDelay (h m now : Nat) : Nat :=
  let base := (now / dayMs) * dayMs + msOfTime h m
  let target := if base ≤ now then base + dayMs else base
  target - now

/-- scheduleNextSend: clear any existing timer, compute the delay from the
current config and arm a fresh one-shot timer for now + delay. -/
def scheduleNextSendOp (now : Nat) (s : SchedState) : SchedState :=
  { s with
    timer := some ⟨s.nextId, now + nextSendDelay s.config.sendH s.config.sendM now, false⟩,
    pending := s.nextId :: clearPending s,
    nextId := s.nextId + 1 }

/-- setupScheduler: return immediately when autoSend is off (without touching
any existing timer), else delegate to scheduleNextSend. -/
def setupSchedulerOp (now : Nat) (s : SchedState) : SchedState :=
  if s.config.autoSend then scheduleNextSendOp now s else s

/-- updateConfig: overwrite the config field, then run setupScheduler. -/
def updateConfigOp (now : Nat) (cfg : NewsCfg) (s : SchedState) : SchedState :=
  setupSchedulerOp now { s with config := cfg }

/-- destroy: clearTimeout on the pending handle and null the field. -/
def destroyOp (s : SchedState) : SchedState :=
  { s with pending := clearPending s, timer := none }

/-- The debug resetScheduler command: clear the timer, null the field, then
run setupScheduler. -/
def resetSchedulerOp (now : Nat) (s : SchedState) : SchedState :=
  setupSchedulerOp now (destroyOp s)

/-- The debug testTimer command: clear the timer, null the field, then arm a
5-second one-shot timer whose callback does not re-arm. -/
def testTimerOp (now : Nat) (s : SchedState) : SchedState :=
  { destroyOp s with
    timer := some ⟨s.nextId, now + 5000, true⟩,
    pending := s.nextId :: (destroyOp s).pending,
    nextId := s.nextId + 1 }

/-- A live timer fires at its target instant: the handle is consumed, the
callback invokes sendNewsToGroups (which catches every delivery error, so
the outcome flag never alters control flow), and — for the regular timer
only — scheduleNextSend re-arms from the fire instant.  The stale field is
not nulled by the callback, exactly as in the source. -/
def firedState (s : SchedState) (t : TimerH) : SchedState :=
  { s with pending := s.pending.filter (fun i => i ≠ t.id),
           deliveries := s.deliveries + 1 }

/-- The firing transition itself; the outcome flag is the success or failure
of the delivery cycle, which never alters the scheduler state. -/
def fireOp (outcome : Bool) (s : SchedState) : SchedState :=
  match s.timer with
  | none => s
  | some t =>
      if t.id ∈ s.pending then
        if t.isTest then firedState s t else scheduleNextSendOp t.target (firedState s t)
      else s

/-- Module construction at time now: commands registered, then setupScheduler. -/
def initState (now : Nat) (cfg : NewsCfg) : SchedState :=
  setupSchedulerOp now { timer := none, pending := [], config := cfg, nextId := 0,
                         deliveries := 0 }

/-- The externally triggerable scheduler transitions of a module instance. -/
inductive SchedEvent where
  | update (now : Nat) (cfg : NewsCfg)
  | reset (now : Nat)
  | timerCmd (now : Nat)
  | fire (outcome : Bool)
  | shutdown
deriving Repr

/-- One scheduler transition. -/
def schedStep (s : SchedState) (e : SchedEvent) : SchedState :=
  match e with
  | SchedEvent.update now cfg => updateConfigOp now cfg s
  | SchedEvent.reset now => resetSchedulerOp now s
  | SchedEvent.timerCmd now => testTimerOp now s
  | SchedEvent.fire outcome => fireOp outcome s
  | SchedEvent.shutdown => destroyOp s

/-- The state reached from module construction through a list of events. -/
def runSched (now0 : Nat) (cfg0 : NewsCfg) (evs : List SchedEvent) : SchedState :=
  evs.foldl schedStep (initState now0 cfg0)

/-- The single-timer invariant: the timer field's id is fresh and the live
multiset is empty or exactly the field's handle; with a null field no live
handle exists. -/
def SchedInv (s : SchedState) : Prop :=
  (∀ t, s.timer = some t → t.id < s.nextId ∧ (s.pending = [] ∨ s.pending = [t.id])) ∧
  (s.timer = none → s.pending = [])

/-- A concrete armed state: the regular timer with id 0 is armed for 08:00 of
day 0, matching the configured sendTime 08:00. -/
def sArmed : SchedState :=
  { timer := some ⟨0, 28800000, false⟩, pending := [0],
    config := { autoSend := true, sendH := 8, sendM := 0, targetGroups := ["G"] },
    nextId := 1, deliveries := 0 }

/-- The enabled configuration used in the reconfiguration scenario. -/
def cfgOn : NewsCfg := { autoSend := true, sendH := 8, sendM := 0, targetGroups := ["G"] }

/-- The same configuration with autoSend switched off. -/
def cfgOff : NewsCfg := { autoSend := false, sendH := 8, sendM := 0, targetGroups := ["G"] }

/-! ### Figurine module: the per-user image-wait table
(src/modules/figurine.ts, waitForImage lines 192-214, setupImageHandler
lines 67-88, destroy lines 287-295)

`waitingImages` is a `Map` from user id to the awaited style and the timeout
handle; the multiset of live (uncancelled, unfired) timeout handles is
tracked explicitly so duplicate-timer leaks would be observable.  The Map is
embedded as an association list whose key uniqueness is proved, not assumed.
-/

/-- One entry of `waitingImages`: the awaited style and the timeout handle. -/
structure FigEntry where
  style : Nat
  tid : Nat
deriving DecidableEq, Repr

/-- The association-list embedding of the `waitingImages` Map. -/
abbrev WaitMap : Type := List (String × FigEntry)

/-- Map.get / Map.has: the entry stored under user `u`, if any. -/
def lookupWait (u : String) : WaitMap → Option FigEntry
  | [] => none
  | (v, e) :: rest => if v = u then some e else lookupWait u rest

/-- Map.set: replace the entry under `u` in place, or append a new one. -/
def setWait (u : String) (e : FigEntry) : WaitMap → WaitMap
  | [] => [(u, e)]
  | (v, e2) :: rest =>
      if v = u then (u, e) :: rest else (v, e2) :: setWait u e rest

/-- Map.delete: drop the entry under `u`. -/
def removeWait (u : String) : WaitMap → WaitMap
  | [] => []
  | (v, e2) :: rest => if v = u then rest else (v, e2) :: removeWait u rest

/-- The wait-table state of a FigurineModule instance: the map, the live
timeout handles, and a fresh-handle counter. -/
structure FigState where
  waiting : WaitMap
  live : List Nat
  nextId : Nat
deriving DecidableEq, Repr

/-- A freshly constructed figurine module: empty map, no timers. -/
def figInit : FigState := { waiting := [], live := [], nextId := 0 }

/-- The clearTimeout performed on the user's previous timeout (if any entry
for the user exists) before a new wait is registered. -/
def clearUserTimer (u : String) (s : FigState) : List Nat :=
  match lookupWait u s.waiting with
  | some e => s.live.filter (fun i => i ≠ e.tid)
  | none => s.live

/-- waitForImage: clear the user's previous timeout if an entry exists, arm a
fresh 10-second timeout, and overwrite the user's map entry with the new
style and handle. -/
def waitForImageOp (u : String) (style : Nat) (s : FigState) : FigState :=
  { waiting := setWait u ⟨style, s.nextId⟩ s.waiting,
    live := s.nextId :: clearUserTimer u s,
    nextId := s.nextId + 1 }

/-- The message handler: when the user has a waiting entry and the message
carries an image, clearTimeout the entry's handle and delete the entry;
otherwise the state is untouched. -/
def messageOp (u : String) (hasImage : Bool) (s : FigState) : FigState :=
  if hasImage then
    match lookupWait u s.waiting with
    | some e =>
        { waiting := removeWait u s.waiting,
          live := s.live.filter (fun i => i ≠ e.tid),
          nextId := s.nextId }
    | none => s
  else s

/-- The 10-second timeout callback for user `u`: it runs only while its
handle is still live (not cleared); it consumes the handle and deletes the
user's map entry. -/
def expireOp (u : String) (s : FigState) : FigState :=
  match lookupWait u s.waiting with
  | some e =>
      if e.tid ∈ s.live then
        { waiting := removeWait u s.waiting,
          live := s.live.filter (fun i => i ≠ e.tid),
          nextId := s.nextId }
      else s
  | none => s

/-- destroy: clearTimeout every waiting entry's handle and clear the map. -/
def figDestroyOp (s : FigState) : FigState :=
  { waiting := [],
    live := s.live.filter
      (fun i => !((s.waiting.map (fun p => p.2.tid)).contains i)),
    nextId := s.nextId }

/-- The externally triggerable transitions of the wait table. -/
inductive FigEvent where
  | waitFor (u : String) (style : Nat)
  | message (u : String) (hasImage : Bool)
  | expire (u : String)
  | shutdown
deriving Repr

/-- One wait-table transition. -/
def figStep (s : FigState) (e : FigEvent) : FigState :=
  match e with
  | FigEvent.waitFor u style => waitForImageOp u style s
  | FigEvent.message u hasImage => messageOp u hasImage s
  | FigEvent.expire u => expireOp u s
  | FigEvent.shutdown => figDestroyOp s

/-- The state reached from module construction through a list of events. -/
def runFig (evs : List FigEvent) : FigState :=
  evs.foldl figStep figInit

/-- The wait-table invariant: user keys are unique (at most one entry per
user), timeout handles are pairwise distinct, every entry's handle is live,
and every handle is below the fresh counter. -/
structure FigInv (s : FigState) : Prop where
  keysNodup : (s.waiting.map Prod.fst).Nodup
  tidsNodup : (s.waiting.map (fun p => p.2.tid)).Nodup
  tidLive : ∀ p ∈ s.waiting, p.2.tid ∈ s.live
  tidFresh : ∀ p ∈ s.waiting, p.2.tid < s.nextId

/-! ### Theorems -/

theorem containsDate_insertCache (d : String) (bytes : List Nat) (c : Cache) :
    containsDate d (insertCache d bytes c) = true := by
  induction c with
  | nil => simp [containsDate, insertCache]
  | cons p rest ih =>
      obtain ⟨k, v⟩ := p
      by_cases hk : k = d
      · simp [insertCache, hk, containsDate]
      · simp only [insertCache, if_neg hk]
        simp only [containsDate, List.any_cons] at ih ⊢
        simp [ih]

theorem getNewsImage_eq_none (env : FetchEnv) (today : String) (cache : Cache)
    (himg : imageField env = none) :
    getNewsImage env today cache = (Except.error NewsError.upstream, cache, 1) := by
  unfold getNewsImage
  rw [himg]

theorem getNewsImage_eq_some (env : FetchEnv) (today : String) (cache : Cache) (url : String)
    (himg : imageField env = some url) :
    getNewsImage env today cache =
      if env.apiResponse.code ≠ 200 ∨ url = "" then
        (Except.error NewsError.upstream, cache, 1)
      else if containsDate today cache then
        (Except.ok url, cache, 1)
      else
        (Except.ok url, insertCache today (env.imageContent url) cache, 2) := by
  unfold getNewsImage
  rw [himg]

theorem getNewsImage_ok_contains (env : FetchEnv) (today : String) (cache : Cache)
    (r : String) (c : Cache) (n : Nat)
    (h : getNewsImage env today cache = (Except.ok r, c, n)) :
    containsDate today c = true := by
  cases himg : imageField env with
  | none => rw [getNewsImage_eq_none env today cache himg] at h; simp at h
  | some url =>
      rw [getNewsImage_eq_some env today cache url himg] at h
      by_cases hbad : env.apiResponse.code ≠ 200 ∨ url = ""
      · simp [hbad] at h
      · rw [if_neg hbad] at h
        by_cases hhit : containsDate today cache = true
        · rw [if_pos hhit] at h
          simp only [Prod.mk.injEq] at h
          obtain ⟨-, hc, -⟩ := h
          rw [← hc]
          exact hhit
        · rw [if_neg hhit] at h
          simp only [Prod.mk.injEq] at h
          obtain ⟨-, hc, -⟩ := h
          rw [← hc]
          exact containsDate_insertCache today (env.imageContent url) cache

theorem getNewsImage_ok_ref (env : FetchEnv) (today : String) (cache : Cache)
    (r : String) (c : Cache) (n : Nat)
    (h : getNewsImage env today cache = (Except.ok r, c, n)) :
    imageField env = some r ∧ env.apiResponse.code = 200 ∧ r ≠ "" := by
  cases himg : imageField env with
  | none => rw [getNewsImage_eq_none env today cache himg] at h; simp at h
  | some url =>
      rw [getNewsImage_eq_some env today cache url himg] at h
      by_cases hbad : env.apiResponse.code ≠ 200 ∨ url = ""
      · simp [hbad] at h
      · rw [if_neg hbad] at h
        push_neg at hbad
        have hurl : url = r := by
          by_cases hhit : containsDate today cache = true
          · rw [if_pos hhit] at h
            simp only [Prod.mk.injEq, Except.ok.injEq] at h
            exact h.1
          · rw [if_neg hhit] at h
            simp only [Prod.mk.injEq, Except.ok.injEq] at h
            exact h.1
        subst hurl
        exact ⟨rfl, hbad.1, hbad.2⟩

theorem getNewsImage_fst_ok (env : FetchEnv) (today : String) (cache : Cache) (r : String)
    (h : (getNewsImage env today cache).1 = Except.ok r) :
    imageField env = some r ∧ env.apiResponse.code = 200 ∧ r ≠ "" := by
  apply getNewsImage_ok_ref env today cache r
    (getNewsImage env today cache).2.1 (getNewsImage env today cache).2.2
  rw [← h]

/-- Claim C6: when the upstream response's status code is not 200 or the
expected image-URL field is absent, getNewsImage fails with the upstream
error and leaves the cache store unchanged (no file is created for today):
the failure happens after exactly one network fetch, before any cache write. -/
theorem news_bad_response_fails_cache_unchanged (env : FetchEnv) (today : String) (cache : Cache)
    (h : env.apiResponse.code ≠ 200 ∨ imageField env = none) :
    getNewsImage env today cache = (Except.error NewsError.upstream, cache, 1) := by
  cases himg : imageField env with
  | none => exact getNewsImage_eq_none env today cache himg
  | some url =>
      have hcode : env.apiResponse.code ≠ 200 := by
        rcases h with h | h
        · exact h
        · rw [himg] at h
          exact absurd h (by simp)
      rw [getNewsImage_eq_some env today cache url himg, if_pos (Or.inl hcode)]

/-- Witness for C6 at a concrete input: an HTTP-500-style body on an empty
cache store yields the upstream error, an unchanged (empty) store and one fetch. -/
theorem news_bad_response_fails_cache_unchanged_witness :
    getNewsImage envBad "2025-01-02" [] = (Except.error NewsError.upstream, [], 1) :=
  news_bad_response_fails_cache_unchanged envBad "2025-01-02" [] (Or.inl (by decide))

/-- Claim C1 counterexample: with a healthy upstream environment, a first
call on date 2025-01-01 succeeds; the subsequent call on the same date and
the resulting cache still performs a nonzero number of network fetches
(namely the upstream API request made before the cache check), refuting
"zero network fetches" on the cache-hit path. -/
theorem news_second_call_nonzero_fetches :
    (getNewsImage envGood "2025-01-01" []).1 = Except.ok "http://img.example/u.jpg" ∧
    (getNewsImage envGood "2025-01-01"
        (getNewsImage envGood "2025-01-01" []).2.1).2.2 ≠ 0 := by
  constructor
  · rfl
  · decide

/-- Claim C1 (amended): after a successful getNewsImage call on date D, a
subsequent call on D with the resulting cache performs exactly one network
fetch (the upstream API request; the image download and the cache write are
skipped), leaves the cache unchanged and returns the same remote image URL
taken from the API response, not a reference derived from the cached payload. -/
theorem news_second_call_single_fetch (env : FetchEnv) (today : String) (cache : Cache)
    (r : String) (c : Cache) (n : Nat)
    (h : getNewsImage env today cache = (Except.ok r, c, n)) :
    getNewsImage env today c = (Except.ok r, c, 1) := by
  obtain ⟨himg, hcode, hne⟩ := getNewsImage_ok_ref env today cache r c n h
  have hcon := getNewsImage_ok_contains env today cache r c n h
  rw [getNewsImage_eq_some env today c r himg]
  rw [if_neg (by push_neg; exact ⟨hcode, hne⟩)]
  rw [if_pos hcon]

/-- Witness for the amended C1 at a concrete input: a first (miss) call wrote
the payload for 2025-01-01; the second call returns the same URL, the same
store, and performs one fetch. -/
theorem news_second_call_single_fetch_witness :
    getNewsImage envGood "2025-01-01" [("2025-01-01", [1, 2, 3])] =
      (Except.ok "http://img.example/u.jpg", [("2025-01-01", [1, 2, 3])], 1) :=
  news_second_call_single_fetch envGood "2025-01-01" [] "http://img.example/u.jpg"
    [("2025-01-01", [1, 2, 3])] 2 rfl

/-- Claim C9: every successful getNewsImage call returns exactly the remote
image URL carried by the upstream API response, identically in the cache-hit
and cache-miss branches; the returned reference is therefore independent of
the cache store contents. -/
theorem news_returned_reference_is_remote_url (env : FetchEnv) (today : String)
    (cache : Cache) (r : String)
    (h : (getNewsImage env today cache).1 = Except.ok r) :
    imageField env = some r ∧
      ∀ cache2 r2, (getNewsImage env today cache2).1 = Except.ok r2 → r2 = r := by
  have h1 := getNewsImage_fst_ok env today cache r h
  refine ⟨h1.1, ?_⟩
  intro cache2 r2 h2
  have h3 := getNewsImage_fst_ok env today cache2 r2 h2
  rw [h1.1] at h3
  exact (Option.some_inj.mp h3.1).symm

/-- Witness for C9 at a concrete input: the reference returned on an empty
cache store is the URL of the upstream response body. -/
theorem news_returned_reference_is_remote_url_witness :
    imageField envGood = some "http://img.example/u.jpg" :=
  (news_returned_reference_is_remote_url envGood "2025-03-03" [] "http://img.example/u.jpg"
    rfl).1

theorem deleteLoop_all_ok (files : List String) (delOk : String → Bool)
    (h : ∀ f ∈ files, delOk f = true) : deleteLoop files delOk = (true, []) := by
  induction files with
  | nil => rfl
  | cons f fs ih =>
      have hf : delOk f = true := h f (List.mem_cons_self f fs)
      simp only [deleteLoop, hf, if_true]
      exact ih (fun g hg => h g (List.mem_cons_of_mem f hg))

theorem deleteLoop_fails (files : List String) (delOk : String → Bool)
    (h : ∃ f ∈ files, delOk f = false) : (deleteLoop files delOk).1 = false := by
  induction files with
  | nil => simp at h
  | cons f fs ih =>
      by_cases hf : delOk f = true
      · simp only [deleteLoop, hf, if_true]
        apply ih
        rcases h with ⟨g, hg, hgf⟩
        rcases List.mem_cons.mp hg with h1 | h1
        · rw [h1] at hgf; rw [hgf] at hf; cases hf
        · exact ⟨g, h1, hgf⟩
      · rw [Bool.not_eq_true] at hf
        simp [deleteLoop, hf]

/-- Claim C7: clearCache on a store of N entries with all deletes succeeding
deletes each entry (the store is empty afterwards) and reports the count N;
on an empty store it reports 0 and does not fail; when any single delete
fails the call reports an overall failure with no partial count. -/
theorem news_clearCache_spec (files : List String) (delOk : String → Bool) :
    ((∀ f ∈ files, delOk f = true) → clearCache files delOk = (some files.length, [])) ∧
    clearCache [] delOk = (some 0, []) ∧
    ((∃ f ∈ files, delOk f = false) → (clearCache files delOk).1 = none) := by
  refine ⟨?_, rfl, ?_⟩
  · intro h
    unfold clearCache
    rw [deleteLoop_all_ok files delOk h]
    rfl
  · intro h
    unfold clearCache
    simp only [deleteLoop_fails files delOk h, Bool.false_eq_true, if_false]

/-- Witness for C7 at concrete inputs: two entries with succeeding deletes
report count 2 and empty the store; a store with one failing delete reports
an overall failure with no count. -/
theorem news_clearCache_spec_witness :
    clearCache ["a.jpg", "b.jpg"] (fun _ => true) = (some 2, []) ∧
    (clearCache ["a.jpg"] (fun _ => false)).1 = none := by
  constructor
  · exact (news_clearCache_spec ["a.jpg", "b.jpg"] (fun _ => true)).1
      (fun f _ => rfl)
  · exact (news_clearCache_spec ["a.jpg"] (fun _ => false)).2.2
      ⟨"a.jpg", List.mem_cons_self _ _, rfl⟩

theorem trySend_none_iff (bots : List (String → Bool)) (g : String) :
    trySend bots g = none ↔ ∀ b ∈ bots, b g = false := by
  induction bots with
  | nil => simp [trySend]
  | cons b bs ih =>
      by_cases hb : b g = true
      · simp [trySend, hb]
      · rw [Bool.not_eq_true] at hb
        simp [trySend, hb, ih]

theorem trySend_some_spec (bots : List (String → Bool)) (g : String) (i : Nat)
    (h : trySend bots g = some i) :
    ∃ hi : i < bots.length, bots.get ⟨i, hi⟩ g = true ∧
      ∀ j, ∀ hj : j < bots.length, j < i → bots.get ⟨j, hj⟩ g = false := by
  induction bots generalizing i with
  | nil => simp [trySend] at h
  | cons b bs ih =>
      by_cases hb : b g = true
      · simp only [trySend, hb, if_true, Option.some.injEq] at h
        subst h
        exact ⟨Nat.succ_pos _, hb, fun j hj hji => absurd hji (Nat.not_lt_zero j)⟩
      · rw [Bool.not_eq_true] at hb
        simp only [trySend, hb] at h
        rw [if_neg (by simp)] at h
        rcases Option.map_eq_some'.mp h with ⟨i0, h0, hi0⟩
        subst hi0
        obtain ⟨hlt, hget, hprev⟩ := ih i0 h0
        refine ⟨Nat.succ_lt_succ hlt, hget, ?_⟩
        intro j hj hji
        cases j with
        | zero => exact hb
        | succ j0 =>
            have hj0 : j0 < bs.length := Nat.lt_of_succ_lt_succ hj
            have hji0 : j0 < i0 := by omega
            exact hprev j0 hj0 hji0

/-- Claim C5 counterexample: with zero available channels and destination
list containing only A, the code takes the no-bot early return and visits no
destination at all, whereas the claim requires visiting A and recording a
failure for it (the record list the spec's words prescribe at this input). -/
theorem news_delivery_empty_channels_cex :
    sendToSpecificGroups [] ["A"] = none ∧ specDelivery [] ["A"] = [("A", none)] :=
  ⟨rfl, rfl⟩

/-- Claim C5 (amended): when at least one channel is available, delivery
visits each destination in listed order producing exactly one record per
destination; each destination is delivered by the first succeeding channel
(all earlier channels having failed), a destination every channel fails for
is recorded as a failure, and later destinations are attempted regardless; a
single pass with no retry.  With zero channels the routine instead reports
the absence of channels once and visits no destination. -/
theorem news_delivery_fanout_spec (bots : List (String → Bool)) (groups : List String)
    (hne : bots ≠ []) :
    sendToSpecificGroups bots groups = some (specDelivery bots groups) ∧
    (specDelivery bots groups).map Prod.fst = groups ∧
    (∀ g, trySend bots g = none ↔ ∀ b ∈ bots, b g = false) ∧
    (∀ g i, trySend bots g = some i →
      ∃ hi : i < bots.length, bots.get ⟨i, hi⟩ g = true ∧
        ∀ j, ∀ hj : j < bots.length, j < i → bots.get ⟨j, hj⟩ g = false) := by
  refine ⟨?_, ?_, fun g => trySend_none_iff bots g, fun g i h => trySend_some_spec bots g i h⟩
  · cases bots with
    | nil => exact absurd rfl hne
    | cons b bs => rfl
  · unfold specDelivery
    rw [List.map_map]
    exact List.map_id groups

/-- Witness for the amended C5 at the spec's example input: A is delivered by
the second channel (index 1) after the first fails, and B is still attempted
and delivered by the first channel. -/
theorem news_delivery_fanout_spec_witness :
    sendToSpecificGroups botsAB ["A", "B"] = some [("A", some 1), ("B", some 0)] := by
  have h := (news_delivery_fanout_spec botsAB ["A", "B"] (by simp [botsAB])).1
  rw [h]
  rfl

theorem schedInv_clearPending (s : SchedState) (h : SchedInv s) : clearPending s = [] := by
  cases ht : s.timer with
  | none => simp only [clearPending, ht]; exact h.2 ht
  | some t =>
      obtain ⟨-, hp⟩ := h.1 t ht
      rcases hp with hp | hp
      · simp [clearPending, ht, hp]
      · simp [clearPending, ht, hp]

theorem schedInv_scheduleNextSend (now : Nat) (s : SchedState) (h : SchedInv s) :
    SchedInv (scheduleNextSendOp now s) := by
  unfold scheduleNextSendOp
  rw [schedInv_clearPending s h]
  constructor
  · intro t ht
    simp only [Option.some.injEq] at ht
    subst ht
    exact ⟨Nat.lt_succ_self _, Or.inr rfl⟩
  · intro ht
    simp at ht

theorem schedInv_setupScheduler (now : Nat) (s : SchedState) (h : SchedInv s) :
    SchedInv (setupSchedulerOp now s) := by
  unfold setupSchedulerOp
  by_cases ha : s.config.autoSend = true
  · rw [if_pos ha]
    exact schedInv_scheduleNextSend now s h
  · rw [if_neg ha]
    exact h

theorem schedInv_destroy (s : SchedState) (h : SchedInv s) : SchedInv (destroyOp s) := by
  unfold destroyOp
  rw [schedInv_clearPending s h]
  exact ⟨fun t ht => (by simp at ht), fun _ => rfl⟩

theorem fireOp_eq_none (outcome : Bool) (s : SchedState) (ht : s.timer = none) :
    fireOp outcome s = s := by
  unfold fireOp
  rw [ht]

theorem fireOp_eq_some (outcome : Bool) (s : SchedState) (t : TimerH)
    (ht : s.timer = some t) :
    fireOp outcome s =
      if t.id ∈ s.pending then
        if t.isTest then firedState s t else scheduleNextSendOp t.target (firedState s t)
      else s := by
  unfold fireOp
  rw [ht]

theorem schedInv_fired (s : SchedState) (t : TimerH) (ht : s.timer = some t)
    (h : SchedInv s) : SchedInv (firedState s t) := by
  obtain ⟨hid, hp⟩ := h.1 t ht
  have hfilter : s.pending.filter (fun i => i ≠ t.id) = [] := by
    rcases hp with hp | hp <;> rw [hp] <;> simp
  constructor
  · intro t2 ht2
    have ht2 : t2 = t := by
      have : (firedState s t).timer = s.timer := rfl
      rw [this, ht] at ht2
      exact (Option.some_inj.mp ht2).symm
    subst ht2
    exact ⟨hid, Or.inl (by simpa [firedState] using hfilter)⟩
  · intro ht2
    have : (firedState s t).timer = s.timer := rfl
    rw [this, ht] at ht2
    cases ht2

theorem schedInv_step (e : SchedEvent) (s : SchedState) (h : SchedInv s) :
    SchedInv (schedStep s e) := by
  cases e with
  | update now cfg =>
      apply schedInv_setupScheduler
      exact ⟨fun t ht => h.1 t ht, fun ht => h.2 ht⟩
  | reset now => exact schedInv_setupScheduler now _ (schedInv_destroy s h)
  | timerCmd now =>
      show SchedInv (testTimerOp now s)
      have hcp : (destroyOp s).pending = [] := schedInv_clearPending s h
      constructor
      · intro t ht
        have ht2 : t = ⟨s.nextId, now + 5000, true⟩ := by
          have : (testTimerOp now s).timer = some ⟨s.nextId, now + 5000, true⟩ := rfl
          rw [this] at ht
          exact (Option.some_inj.mp ht).symm
        subst ht2
        refine ⟨Nat.lt_succ_self _, Or.inr ?_⟩
        show s.nextId :: (destroyOp s).pending = [s.nextId]
        rw [hcp]
      · intro ht
        cases ht
  | fire outcome =>
      show SchedInv (fireOp outcome s)
      cases ht : s.timer with
      | none => rw [fireOp_eq_none outcome s ht]; exact h
      | some t =>
          rw [fireOp_eq_some outcome s t ht]
          by_cases hmem : t.id ∈ s.pending
          · rw [if_pos hmem]
            have hfd := schedInv_fired s t ht h
            by_cases htest : t.isTest = true
            · rw [if_pos htest]
              exact hfd
            · rw [if_neg htest]
              exact schedInv_scheduleNextSend t.target _ hfd
          · rw [if_neg hmem]
            exact h
  | shutdown => exact schedInv_destroy s h

theorem schedInv_run (now0 : Nat) (cfg0 : NewsCfg) (evs : List SchedEvent) :
    SchedInv (runSched now0 cfg0 evs) := by
  unfold runSched
  have hinit : SchedInv (initState now0 cfg0) := by
    apply schedInv_setupScheduler
    exact ⟨fun t ht => (by cases ht), fun _ => rfl⟩
  generalize initState now0 cfg0 = s0 at hinit
  induction evs generalizing s0 with
  | nil => exact hinit
  | cons e rest ih => exact ih (schedStep s0 e) (schedInv_step e s0 hinit)

theorem clearPending_some (s : SchedState) (t : TimerH) (ht : s.timer = some t) :
    clearPending s = s.pending.filter (fun i => i ≠ t.id) := by
  unfold clearPending
  rw [ht]

theorem scheduleNextSendOp_timer (now : Nat) (s : SchedState) :
    (scheduleNextSendOp now s).timer =
      some ⟨s.nextId, now + nextSendDelay s.config.sendH s.config.sendM now, false⟩ := rfl

theorem scheduleNextSendOp_pending (now : Nat) (s : SchedState) :
    (scheduleNextSendOp now s).pending = s.nextId :: clearPending s := rfl

theorem testTimerOp_pending (now : Nat) (s : SchedState) :
    (testTimerOp now s).pending = s.nextId :: clearPending s := rfl

/-- Claim C3: for every configured time of day (h, m) and current time now,
the armed one-shot delay equals target minus now when today's (h, m, 0, 0)
target is strictly after now, and target plus one calendar day minus now
otherwise; in particular, for sendTime 08:00 the delay is exactly 1 hour
when now is 07:00 of any day d, and exactly 23 hours when now is 09:00. -/
theorem news_next_delay_spec (h m now d : Nat) :
    (nextSendDelay h m now =
      if now < (now / dayMs) * dayMs + msOfTime h m
      then (now / dayMs) * dayMs + msOfTime h m - now
      else (now / dayMs) * dayMs + msOfTime h m + dayMs - now) ∧
    nextSendDelay 8 0 (d * dayMs + msOfTime 7 0) = 3600000 ∧
    nextSendDelay 8 0 (d * dayMs + msOfTime 9 0) = 82800000 := by
  refine ⟨?_, ?_, ?_⟩ <;>
    simp only [nextSendDelay, msOfTime, dayMs] <;> split_ifs <;> omega

theorem nextSendDelay_on_target (h m T : Nat)
    (hcong : T % dayMs = msOfTime h m) : nextSendDelay h m T = dayMs := by
  simp only [nextSendDelay, msOfTime, dayMs] at *
  split_ifs <;> omega

/-- Claim C4: a firing of the regular scheduled timer, regardless of whether
the delivery cycle succeeds or fails, invokes the delivery routine exactly
once and arms exactly one new timer whose target is exactly 24 hours after
the fired timer's target; the hypotheses say the fired timer is the single
live handle, is the regular (non-debug) one, has a fresh id, and was armed
from the current config (its target lies on the configured time of day). -/
theorem news_refire_next_day (s : SchedState) (t : TimerH) (outcome : Bool)
    (harm : s.timer = some t) (hlive : s.pending = [t.id]) (hreg : t.isTest = false)
    (hfresh : t.id < s.nextId)
    (hcong : t.target % dayMs = msOfTime s.config.sendH s.config.sendM) :
    (fireOp outcome s).deliveries = s.deliveries + 1 ∧
    (fireOp outcome s).timer = some ⟨s.nextId, t.target + dayMs, false⟩ ∧
    (fireOp outcome s).pending = [s.nextId] ∧ s.nextId ≠ t.id := by
  have hmem : t.id ∈ s.pending := by
    rw [hlive]
    exact List.mem_singleton.mpr rfl
  have hdelay : nextSendDelay s.config.sendH s.config.sendM t.target = dayMs :=
    nextSendDelay_on_target _ _ _ hcong
  have hfire : fireOp outcome s = scheduleNextSendOp t.target (firedState s t) := by
    rw [fireOp_eq_some outcome s t harm, if_pos hmem, hreg]
    simp
  have hfil : (firedState s t).pending = [] := by
    show s.pending.filter (fun i => i ≠ t.id) = []
    rw [hlive]
    simp
  have hclear : clearPending (firedState s t) = [] := by
    rw [clearPending_some (firedState s t) t harm, hfil]
    rfl
  rw [hfire]
  refine ⟨rfl, ?_, ?_, ?_⟩
  · rw [scheduleNextSendOp_timer]
    show some (⟨s.nextId, t.target + nextSendDelay s.config.sendH s.config.sendM t.target,
      false⟩ : TimerH) = some ⟨s.nextId, t.target + dayMs, false⟩
    rw [hdelay]
  · rw [scheduleNextSendOp_pending, hclear]
    rfl
  · intro he
    rw [he] at hfresh
    exact lt_irrefl _ hfresh

/-- Witness for C4 at the concrete armed state: the firing delivers once and
re-arms a single fresh timer for 08:00 of the next day. -/
theorem news_refire_next_day_witness :
    (fireOp true sArmed).deliveries = sArmed.deliveries + 1 ∧
    (fireOp true sArmed).timer = some ⟨1, 28800000 + dayMs, false⟩ ∧
    (fireOp true sArmed).pending = [1] ∧ (1 : Nat) ≠ 0 :=
  news_refire_next_day sArmed ⟨0, 28800000, false⟩ true rfl rfl rfl (by decide)
    (by decide)

/-- Claim C2 fails on the code (code bug): constructing the module at local
midnight arms the 08:00 timer; replacing the configuration with
autoSend = false at 01:00 leaves both the timer field and the live handle
untouched, because setupScheduler returns early without clearTimeout; the
stale timer then fires, invoking the delivery routine once more, and its
callback re-arms a fresh timer unconditionally, so firings continue. -/
theorem news_disable_keeps_timer_firing :
    (updateConfigOp 3600000 cfgOff (initState 0 cfgOn)).timer = (initState 0 cfgOn).timer ∧
    (updateConfigOp 3600000 cfgOff (initState 0 cfgOn)).pending =
      (initState 0 cfgOn).pending ∧
    (initState 0 cfgOn).pending ≠ [] ∧
    (fireOp true (updateConfigOp 3600000 cfgOff (initState 0 cfgOn))).deliveries =
      (updateConfigOp 3600000 cfgOff (initState 0 cfgOn)).deliveries + 1 ∧
    (fireOp true (updateConfigOp 3600000 cfgOff (initState 0 cfgOn))).pending.length = 1 := by
  decide

/-- Claim C8: in every reachable state of the news module at most one live
timer handle exists, and each arming operation (scheduleNextSend and the
debug testTimer) first cancels the existing timer, so the previously armed
handle is never live after arming. -/
theorem news_single_timer (now0 : Nat) (cfg0 : NewsCfg) (evs : List SchedEvent) :
    (runSched now0 cfg0 evs).pending.length ≤ 1 ∧
    ∀ t, (runSched now0 cfg0 evs).timer = some t → ∀ now,
      t.id ∉ (scheduleNextSendOp now (runSched now0 cfg0 evs)).pending ∧
      t.id ∉ (testTimerOp now (runSched now0 cfg0 evs)).pending := by
  have hinv := schedInv_run now0 cfg0 evs
  constructor
  · cases ht : (runSched now0 cfg0 evs).timer with
    | none => rw [hinv.2 ht]; simp
    | some t => rcases (hinv.1 t ht).2 with hp | hp <;> rw [hp] <;> simp
  · intro t ht now
    obtain ⟨hid, -⟩ := hinv.1 t ht
    have hclear : t.id ∉ clearPending (runSched now0 cfg0 evs) := by
      rw [clearPending_some _ t ht]
      simp [List.mem_filter]
    constructor
    · rw [scheduleNextSendOp_pending]
      intro hmem
      rcases List.mem_cons.mp hmem with h1 | h1
      · rw [h1] at hid
        exact lt_irrefl _ hid
      · exact hclear h1
    · rw [testTimerOp_pending]
      intro hmem
      rcases List.mem_cons.mp hmem with h1 | h1
      · rw [h1] at hid
        exact lt_irrefl _ hid
      · exact hclear h1

/-- Witness for C8 on a concrete run: after construction at midnight and a
live reconfiguration at 01:00, the single live handle is timer id 1, and
re-arming at 02:00 cancels it. -/
theorem news_single_timer_witness :
    (runSched 0 cfgOn [SchedEvent.update 3600000 cfgOn]).pending.length ≤ 1 ∧
    (1 : Nat) ∉ (scheduleNextSendOp 7200000
      (runSched 0 cfgOn [SchedEvent.update 3600000 cfgOn])).pending :=
  ⟨(news_single_timer 0 cfgOn [SchedEvent.update 3600000 cfgOn]).1,
    ((news_single_timer 0 cfgOn [SchedEvent.update 3600000 cfgOn]).2
      ⟨1, 28800000, false⟩ rfl 7200000).1⟩

theorem clearUserTimer_eq_some (u : String) (s : FigState) (e : FigEntry)
    (h : lookupWait u s.waiting = some e) :
    clearUserTimer u s = s.live.filter (fun i => i ≠ e.tid) := by
  unfold clearUserTimer
  rw [h]

theorem clearUserTimer_eq_none (u : String) (s : FigState)
    (h : lookupWait u s.waiting = none) : clearUserTimer u s = s.live := by
  unfold clearUserTimer
  rw [h]

theorem messageOp_true_some (u : String) (s : FigState) (e : FigEntry)
    (h : lookupWait u s.waiting = some e) :
    messageOp u true s =
      { waiting := removeWait u s.waiting,
        live := s.live.filter (fun i => i ≠ e.tid),
        nextId := s.nextId } := by
  unfold messageOp
  rw [if_pos rfl, h]

theorem messageOp_true_none (u : String) (s : FigState)
    (h : lookupWait u s.waiting = none) : messageOp u true s = s := by
  unfold messageOp
  rw [if_pos rfl, h]

theorem expireOp_eq_some (u : String) (s : FigState) (e : FigEntry)
    (h : lookupWait u s.waiting = some e) :
    expireOp u s =
      if e.tid ∈ s.live then
        { waiting := removeWait u s.waiting,
          live := s.live.filter (fun i => i ≠ e.tid),
          nextId := s.nextId }
      else s := by
  unfold expireOp
  rw [h]

theorem expireOp_eq_none (u : String) (s : FigState)
    (h : lookupWait u s.waiting = none) : expireOp u s = s := by
  unfold expireOp
  rw [h]

theorem lookupWait_mem (u : String) (l : WaitMap) (e : FigEntry)
    (h : lookupWait u l = some e) : (u, e) ∈ l := by
  induction l with
  | nil => cases h
  | cons p rest ih =>
      obtain ⟨v, e2⟩ := p
      by_cases hv : v = u
      · rw [show lookupWait u ((v, e2) :: rest) = some e2 from by
          simp only [lookupWait]; rw [if_pos hv]] at h
        have he : e2 = e := Option.some_inj.mp h
        subst he
        subst hv
        exact List.mem_cons_self _ _
      · rw [show lookupWait u ((v, e2) :: rest) = lookupWait u rest from by
          simp only [lookupWait]; rw [if_neg hv]] at h
        exact List.mem_cons_of_mem _ (ih h)

theorem lookupWait_eq_none_of_not_mem (u : String) (l : WaitMap)
    (h : u ∉ l.map Prod.fst) : lookupWait u l = none := by
  induction l with
  | nil => rfl
  | cons p rest ih =>
      obtain ⟨v, e2⟩ := p
      simp only [List.map_cons, List.mem_cons] at h
      push_neg at h
      show (if v = u then some e2 else lookupWait u rest) = none
      rw [if_neg (fun hv => h.1 hv.symm)]
      exact ih h.2

theorem mem_setWait_nodup (u : String) (e : FigEntry) (l : WaitMap)
    (hnd : (l.map Prod.fst).Nodup) (p : String × FigEntry) (hp : p ∈ setWait u e l) :
    p = (u, e) ∨ (p ∈ l ∧ p.1 ≠ u) := by
  induction l with
  | nil =>
      left
      simpa [setWait] using hp
  | cons q rest ih =>
      obtain ⟨v, e2⟩ := q
      simp only [List.map_cons, List.nodup_cons] at hnd
      by_cases hv : v = u
      · rw [show setWait u e ((v, e2) :: rest) = (u, e) :: rest from by
          simp only [setWait]; rw [if_pos hv]] at hp
        rcases List.mem_cons.mp hp with h1 | h1
        · exact Or.inl h1
        · right
          refine ⟨List.mem_cons_of_mem _ h1, ?_⟩
          intro hpu
          apply hnd.1
          rw [hv]
          rw [← hpu]
          exact List.mem_map_of_mem Prod.fst h1
      · rw [show setWait u e ((v, e2) :: rest) = (v, e2) :: setWait u e rest from by
          simp only [setWait]; rw [if_neg hv]] at hp
        rcases List.mem_cons.mp hp with h1 | h1
        · right
          rw [h1]
          exact ⟨List.mem_cons_self _ _, hv⟩
        · rcases ih hnd.2 h1 with h2 | h2
          · exact Or.inl h2
          · exact Or.inr ⟨List.mem_cons_of_mem _ h2.1, h2.2⟩

theorem keys_setWait_subset (u : String) (e : FigEntry) (l : WaitMap)
    (v : String) (hv : v ∈ (setWait u e l).map Prod.fst) :
    v ∈ l.map Prod.fst ∨ v = u := by
  induction l with
  | nil =>
      right
      simpa [setWait] using hv
  | cons q rest ih =>
      obtain ⟨w, e2⟩ := q
      by_cases hw : w = u
      · rw [show setWait u e ((w, e2) :: rest) = (u, e) :: rest from by
          simp only [setWait]; rw [if_pos hw]] at hv
        simp only [List.map_cons, List.mem_cons] at hv ⊢
        rcases hv with h1 | h1
        · exact Or.inr h1
        · exact Or.inl (Or.inr h1)
      · rw [show setWait u e ((w, e2) :: rest) = (w, e2) :: setWait u e rest from by
          simp only [setWait]; rw [if_neg hw]] at hv
        simp only [List.map_cons, List.mem_cons] at hv ⊢
        rcases hv with h1 | h1
        · exact Or.inl (Or.inl h1)
        · rcases ih h1 with h2 | h2
          · exact Or.inl (Or.inr h2)
          · exact Or.inr h2

theorem nodup_keys_setWait (u : String) (e : FigEntry) (l : WaitMap)
    (hnd : (l.map Prod.fst).Nodup) : ((setWait u e l).map Prod.fst).Nodup := by
  induction l with
  | nil => simp [setWait]
  | cons q rest ih =>
      obtain ⟨v, e2⟩ := q
      simp only [List.map_cons, List.nodup_cons] at hnd
      by_cases hv : v = u
      · rw [show setWait u e ((v, e2) :: rest) = (u, e) :: rest from by
          simp only [setWait]; rw [if_pos hv]]
        simp only [List.map_cons, List.nodup_cons]
        refine ⟨?_, hnd.2⟩
        rw [← hv]
        exact hnd.1
      · rw [show setWait u e ((v, e2) :: rest) = (v, e2) :: setWait u e rest from by
          simp only [setWait]; rw [if_neg hv]]
        simp only [List.map_cons, List.nodup_cons]
        refine ⟨?_, ih hnd.2⟩
        intro hvmem
        rcases keys_setWait_subset u e rest v hvmem with h1 | h1
        · exact hnd.1 h1
        · exact hv h1

theorem tids_setWait_subset (u : String) (e : FigEntry) (l : WaitMap)
    (x : Nat) (hx : x ∈ (setWait u e l).map (fun p => p.2.tid)) :
    x = e.tid ∨ x ∈ l.map (fun p => p.2.tid) := by
  induction l with
  | nil =>
      left
      simpa [setWait] using hx
  | cons q rest ih =>
      obtain ⟨w, e2⟩ := q
      by_cases hw : w = u
      · rw [show setWait u e ((w, e2) :: rest) = (u, e) :: rest from by
          simp only [setWait]; rw [if_pos hw]] at hx
        simp only [List.map_cons, List.mem_cons] at hx ⊢
        rcases hx with h1 | h1
        · exact Or.inl h1
        · exact Or.inr (Or.inr h1)
      · rw [show setWait u e ((w, e2) :: rest) = (w, e2) :: setWait u e rest from by
          simp only [setWait]; rw [if_neg hw]] at hx
        simp only [List.map_cons, List.mem_cons] at hx ⊢
        rcases hx with h1 | h1
        · exact Or.inr (Or.inl h1)
        · rcases ih h1 with h2 | h2
          · exact Or.inl h2
          · exact Or.inr (Or.inr h2)

theorem nodup_tids_setWait (u : String) (e : FigEntry) (l : WaitMap)
    (hnd : (l.map (fun p => p.2.tid)).Nodup)
    (hfresh : e.tid ∉ l.map (fun p => p.2.tid)) :
    ((setWait u e l).map (fun p => p.2.tid)).Nodup := by
  induction l with
  | nil => simp [setWait]
  | cons q rest ih =>
      obtain ⟨v, e2⟩ := q
      simp only [List.map_cons, List.nodup_cons] at hnd
      simp only [List.map_cons, List.mem_cons] at hfresh
      push_neg at hfresh
      by_cases hv : v = u
      · rw [show setWait u e ((v, e2) :: rest) = (u, e) :: rest from by
          simp only [setWait]; rw [if_pos hv]]
        simp only [List.map_cons, List.nodup_cons]
        exact ⟨hfresh.2, hnd.2⟩
      · rw [show setWait u e ((v, e2) :: rest) = (v, e2) :: setWait u e rest from by
          simp only [setWait]; rw [if_neg hv]]
        simp only [List.map_cons, List.nodup_cons]
        refine ⟨?_, ih hnd.2 hfresh.2⟩
        intro hmem
        rcases tids_setWait_subset u e rest e2.tid hmem with h1 | h1
        · exact hfresh.1 h1.symm
        · exact hnd.1 h1

theorem nodup_map_inj_on {α β : Type} (f : α → β) (l : List α)
    (hnd : (l.map f).Nodup) (p : α) (hp : p ∈ l) (q : α) (hq : q ∈ l)
    (hfq : f p = f q) : p = q := by
  induction l with
  | nil => cases hp
  | cons a rest ih =>
      simp only [List.map_cons, List.nodup_cons] at hnd
      rcases List.mem_cons.mp hp with h1 | h1 <;>
        rcases List.mem_cons.mp hq with h2 | h2
      · rw [h1, h2]
      · exfalso
        apply hnd.1
        rw [← h1, hfq]
        exact List.mem_map_of_mem f h2
      · exfalso
        apply hnd.1
        rw [← h2, ← hfq]
        exact List.mem_map_of_mem f h1
      · exact ih hnd.2 h1 h2

theorem removeWait_sublist (u : String) (l : WaitMap) :
    (removeWait u l).Sublist l := by
  induction l with
  | nil => exact List.Sublist.refl []
  | cons q rest ih =>
      obtain ⟨v, e2⟩ := q
      by_cases hv : v = u
      · rw [show removeWait u ((v, e2) :: rest) = rest from by
          simp only [removeWait]; rw [if_pos hv]]
        exact List.sublist_cons_of_sublist _ (List.Sublist.refl rest)
      · rw [show removeWait u ((v, e2) :: rest) = (v, e2) :: removeWait u rest from by
          simp only [removeWait]; rw [if_neg hv]]
        exact List.Sublist.cons₂ _ ih

theorem mem_removeWait_ne (u : String) (l : WaitMap)
    (hnd : (l.map Prod.fst).Nodup) (p : String × FigEntry)
    (hp : p ∈ removeWait u l) : p ∈ l ∧ p.1 ≠ u := by
  induction l with
  | nil => cases hp
  | cons q rest ih =>
      obtain ⟨v, e2⟩ := q
      simp only [List.map_cons, List.nodup_cons] at hnd
      by_cases hv : v = u
      · rw [show removeWait u ((v, e2) :: rest) = rest from by
          simp only [removeWait]; rw [if_pos hv]] at hp
        refine ⟨List.mem_cons_of_mem _ hp, ?_⟩
        intro hpu
        apply hnd.1
        rw [hv, ← hpu]
        exact List.mem_map_of_mem Prod.fst hp
      · rw [show removeWait u ((v, e2) :: rest) = (v, e2) :: removeWait u rest from by
          simp only [removeWait]; rw [if_neg hv]] at hp
        rcases List.mem_cons.mp hp with h1 | h1
        · rw [h1]
          exact ⟨List.mem_cons_self _ _, hv⟩
        · obtain ⟨h2, h3⟩ := ih hnd.2 h1
          exact ⟨List.mem_cons_of_mem _ h2, h3⟩

theorem lookupWait_removeWait (u : String) (l : WaitMap)
    (hnd : (l.map Prod.fst).Nodup) : lookupWait u (removeWait u l) = none := by
  apply lookupWait_eq_none_of_not_mem
  intro hmem
  rcases List.mem_map.mp hmem with ⟨p, hp, hpu⟩
  exact (mem_removeWait_ne u l hnd p hp).2 hpu

theorem figInv_init : FigInv figInit :=
  ⟨List.nodup_nil, List.nodup_nil, fun p hp => absurd hp (List.not_mem_nil p),
    fun p hp => absurd hp (List.not_mem_nil p)⟩

theorem figInv_waitFor (u : String) (style : Nat) (s : FigState) (h : FigInv s) :
    FigInv (waitForImageOp u style s) := by
  have hfreshtid : (⟨style, s.nextId⟩ : FigEntry).tid ∉
      s.waiting.map (fun p => p.2.tid) := by
    intro hmem
    rcases List.mem_map.mp hmem with ⟨p, hp, hpt⟩
    have hlt := h.tidFresh p hp
    rw [hpt] at hlt
    exact lt_irrefl _ hlt
  refine ⟨nodup_keys_setWait u _ s.waiting h.keysNodup,
    nodup_tids_setWait u _ s.waiting h.tidsNodup hfreshtid, ?_, ?_⟩
  · intro p hp
    rcases mem_setWait_nodup u _ s.waiting h.keysNodup p hp with h1 | ⟨h1, h2⟩
    · rw [h1]
      exact List.mem_cons_self _ _
    · show p.2.tid ∈ s.nextId :: clearUserTimer u s
      apply List.mem_cons_of_mem
      cases hlk : lookupWait u s.waiting with
      | none =>
          rw [clearUserTimer_eq_none u s hlk]
          exact h.tidLive p h1
      | some oldE =>
          rw [clearUserTimer_eq_some u s oldE hlk]
          apply List.mem_filter.mpr
          refine ⟨h.tidLive p h1, ?_⟩
          simp only [ne_eq, decide_eq_true_eq]
          intro htid
          apply h2
          have hpe : p = (u, oldE) :=
            nodup_map_inj_on (fun p => p.2.tid) s.waiting h.tidsNodup p h1
              (u, oldE) (lookupWait_mem u s.waiting oldE hlk) htid
          rw [hpe]
  · intro p hp
    rcases mem_setWait_nodup u _ s.waiting h.keysNodup p hp with h1 | ⟨h1, -⟩
    · rw [h1]
      exact Nat.lt_succ_self _
    · exact Nat.lt_succ_of_lt (h.tidFresh p h1)

theorem figInv_removeEntry (u : String) (s : FigState) (e : FigEntry)
    (hlk : lookupWait u s.waiting = some e) (h : FigInv s) :
    FigInv { waiting := removeWait u s.waiting,
             live := s.live.filter (fun i => i ≠ e.tid),
             nextId := s.nextId } := by
  have hsub := removeWait_sublist u s.waiting
  refine ⟨(hsub.map Prod.fst).nodup h.keysNodup,
    (hsub.map (fun p => p.2.tid)).nodup h.tidsNodup, ?_, ?_⟩
  · intro p hp
    obtain ⟨h1, h2⟩ := mem_removeWait_ne u s.waiting h.keysNodup p hp
    apply List.mem_filter.mpr
    refine ⟨h.tidLive p h1, ?_⟩
    simp only [ne_eq, decide_eq_true_eq]
    intro htid
    apply h2
    have hpe : p = (u, e) :=
      nodup_map_inj_on (fun p => p.2.tid) s.waiting h.tidsNodup p h1
        (u, e) (lookupWait_mem u s.waiting e hlk) htid
    rw [hpe]
  · intro p hp
    exact h.tidFresh p (hsub.mem hp)

theorem figInv_message (u : String) (hasImage : Bool) (s : FigState) (h : FigInv s) :
    FigInv (messageOp u hasImage s) := by
  cases hasImage with
  | false => exact h
  | true =>
      cases hlk : lookupWait u s.waiting with
      | none => rw [messageOp_true_none u s hlk]; exact h
      | some e =>
          rw [messageOp_true_some u s e hlk]
          exact figInv_removeEntry u s e hlk h

theorem figInv_expire (u : String) (s : FigState) (h : FigInv s) :
    FigInv (expireOp u s) := by
  cases hlk : lookupWait u s.waiting with
  | none => rw [expireOp_eq_none u s hlk]; exact h
  | some e =>
      rw [expireOp_eq_some u s e hlk]
      by_cases hmem : e.tid ∈ s.live
      · rw [if_pos hmem]
        exact figInv_removeEntry u s e hlk h
      · rw [if_neg hmem]
        exact h

theorem figInv_destroy (s : FigState) : FigInv (figDestroyOp s) :=
  ⟨List.nodup_nil, List.nodup_nil, fun p hp => absurd hp (List.not_mem_nil p),
    fun p hp => absurd hp (List.not_mem_nil p)⟩

theorem figInv_step (e : FigEvent) (s : FigState) (h : FigInv s) :
    FigInv (figStep s e) := by
  cases e with
  | waitFor u style => exact figInv_waitFor u style s h
  | message u hasImage => exact figInv_message u hasImage s h
  | expire u => exact figInv_expire u s h
  | shutdown => exact figInv_destroy s

theorem figInv_run (evs : List FigEvent) : FigInv (runFig evs) := by
  unfold runFig
  have hinit := figInv_init
  generalize figInit = s0 at hinit
  induction evs generalizing s0 with
  | nil => exact hinit
  | cons e rest ih => exact ih (figStep s0 e) (figInv_step e s0 hinit)

/-- Claim C10: in every reachable state of the figurine module each user has
at most one pending image-wait entry (the map keys are unique); arming a new
wait clears the user's existing timeout before registering the new entry
(the old handle is not live afterwards), and both consuming an image-bearing
message and the 10-second expiry remove the user's entry. -/
theorem figurine_single_wait_per_user (evs : List FigEvent) :
    ((runFig evs).waiting.map Prod.fst).Nodup ∧
    ∀ u e, lookupWait u (runFig evs).waiting = some e →
      (∀ style, e.tid ∉ (waitForImageOp u style (runFig evs)).live) ∧
      lookupWait u (messageOp u true (runFig evs)).waiting = none ∧
      lookupWait u (expireOp u (runFig evs)).waiting = none := by
  have hinv := figInv_run evs
  refine ⟨hinv.keysNodup, ?_⟩
  intro u e hlk
  have hmem : (u, e) ∈ (runFig evs).waiting := lookupWait_mem u _ e hlk
  have hfresh : e.tid < (runFig evs).nextId := hinv.tidFresh (u, e) hmem
  have hlive : e.tid ∈ (runFig evs).live := hinv.tidLive (u, e) hmem
  refine ⟨?_, ?_, ?_⟩
  · intro style hin
    rcases List.mem_cons.mp hin with h1 | h1
    · rw [h1] at hfresh
      exact lt_irrefl _ hfresh
    · rw [clearUserTimer_eq_some u _ e hlk] at h1
      obtain ⟨-, h2⟩ := List.mem_filter.mp h1
      simp at h2
  · rw [messageOp_true_some u _ e hlk]
    exact lookupWait_removeWait u _ hinv.keysNodup
  · rw [expireOp_eq_some u _ e hlk, if_pos hlive]
    exact lookupWait_removeWait u _ hinv.keysNodup

/-- Witness for C10 on a concrete run: after one waitForImage for user u with
timeout handle 0, re-arming leaves handle 0 dead, and an image-bearing
message removes the entry. -/
theorem figurine_single_wait_per_user_witness :
    (0 : Nat) ∉ (waitForImageOp "u" 4 (runFig [FigEvent.waitFor "u" 3])).live ∧
    lookupWait "u" (messageOp "u" true (runFig [FigEvent.waitFor "u" 3])).waiting = none :=
  ⟨((figurine_single_wait_per_user [FigEvent.waitFor "u" 3]).2 "u" ⟨3, 0⟩ rfl).1 4,
    ((figurine_single_wait_per_user [FigEvent.waitFor "u" 3]).2 "u" ⟨3, 0⟩ rfl).2.1⟩

end Xxapi
